import Mathlib

/-!
Verification development for the CodeScribe repository: a web client for an
AI documentation-generation service plus the batch documentation pipeline
behind its API surface.  The front-end components (Button, FilePanel,
BatchPanel) are embedded from the TypeScript sources; the backend pipeline
(extractor, provider adapter, unit documenter, assembler, job manager) is
not present in the given sources and is modelled from the specification.
-/

namespace CodeScribe

/-! ## Client-side data: job status as consumed by the polling client -/

/-- Status tag of a batch job as reported by the batchStatus API. -/
inductive JobStatusTag where
  | queued
  | running
  | completed
  | failed
  deriving DecidableEq, Repr

/-- The status snapshot the client receives from api.batchStatus and shows
in the BatchPanel (status, progress, message). -/
structure BatchStatus where
  status : JobStatusTag
  progress : Nat
  message : String
  deriving DecidableEq, Repr

/-- Generation options a panel sends with a request, from the App state
(provider, model, style, verbosity) plus the output format FilePanel fixes
to markdown. -/
structure DocOptions where
  provider : String
  model : String
  style : String
  verbosity : String
  outputFormat : String
  deriving DecidableEq, Repr

/-- API requests that client code can issue, matching the api surface used
by the panels (documentFile, startBatch, batchStatus) plus the separate
artifact-retrieval operation of the service. -/
inductive ApiCall where
  | documentFile (fileName : String) (opts : DocOptions)
  | startBatch (fileNames : List String) (opts : DocOptions)
  | batchStatus (jobId : String)
  | fetchResult (jobId : String)
  deriving DecidableEq, Repr

/-- A status reported to the client is terminal when it is completed or
failed; this is the condition of the clearInterval branch in
BatchPanel.start. -/
def isTerminalTag (t : JobStatusTag) : Bool :=
  t == JobStatusTag.completed || t == JobStatusTag.failed

/-! ## FilePanel.handle (src/unnamed/part_000, lines 13-30)

The handler reads the selected file; when none is selected it returns at
once; otherwise it issues exactly one api.documentFile call with the
current options and markdown output format. -/

/-- Embedding of FilePanel.handle: the list of API requests one invocation
issues, as a function of the selected file (None models a null file
state). -/
def filePanelHandle (file : Option String) (provider model style verbosity : String) :
    List ApiCall :=
  match file with
  | none => []
  | some name =>
      [ApiCall.documentFile name
        { provider := provider, model := model, style := style,
          verbosity := verbosity, outputFormat := "markdown" }]

/-! ## BatchPanel.start and its polling loop
(src/unnamed/part_001 lines 14-33, src/unnamed/part_002 lines 233-249)

start guards on an empty file list, issues api.startBatch, and installs an
interval.  Each tick issues api.batchStatus, stores the snapshot with
setStatus, and clears the interval exactly when the reported status is
completed or failed.  No further API request follows the clearInterval
call. -/

/-- Embedding of the polling interval of BatchPanel.start, driven by the
schedule of status snapshots the server would return on successive ticks.
Returns the API calls issued by the loop and the snapshots passed to
setStatus, in order.  The loop consumes snapshots until the first terminal
one, which it still stores before clearing the interval. -/
def runPolling (jobId : String) : List BatchStatus → List ApiCall × List BatchStatus
  | [] => ([], [])
  | s :: rest =>
      if isTerminalTag s.status then
        ([ApiCall.batchStatus jobId], [s])
      else
        let r := runPolling jobId rest
        (ApiCall.batchStatus jobId :: r.1, s :: r.2)

/-- Embedding of BatchPanel.start: with an empty selection it returns
without issuing any request; otherwise it issues startBatch and then the
requests of the polling loop, given the job id the server assigned and the
schedule of status responses. -/
def batchPanelStart (files : List String) (opts : DocOptions) (jobId : String)
    (responses : List BatchStatus) : List ApiCall :=
  if files.isEmpty then []
  else ApiCall.startBatch files opts :: (runPolling jobId responses).1

/-- The snapshots a polling run stores: the leading non-terminal ones and
then the first terminal one, if the schedule contains any. -/
def polledPrefix (responses : List BatchStatus) : List BatchStatus :=
  responses.takeWhile (fun s => !isTerminalTag s.status)
    ++ (responses.dropWhile (fun s => !isTerminalTag s.status)).take 1

/-! ## Button (src/web/src/components/ui/Button.tsx) -/

/-- Props of the Button component; loading and disabled are optional, with
None modelling an absent (undefined) prop. -/
structure ButtonProps where
  variant : String
  size : String
  className : String
  loading : Option Bool
  disabled : Option Bool
  deriving DecidableEq, Repr

/-- JavaScript truthiness of an optional boolean: an absent value is
falsy. -/
def jsTruthy (b : Option Bool) : Bool := b.getD false

/-- The observable render of a Button: whether the html button carries the
disabled attribute and whether the spinner svg is shown. -/
structure RenderedButton where
  disabledAttr : Bool
  spinner : Bool
  deriving DecidableEq, Repr

/-- Embedding of Button: loading defaults to false when absent, the html
button receives disabled = loading or disabled, and the spinner renders
exactly when loading. -/
def renderButton (p : ButtonProps) : RenderedButton :=
  let loading := p.loading.getD false
  { disabledAttr := loading || jsTruthy p.disabled
  , spinner := loading }

/-! ## Backend pipeline, modelled from the spec

The batch documentation pipeline (Source Unit Extractor, Provider Adapter,
Unit Documenter, File Assembler, Job Manager, Result Store) is specified
in sections 2-7 of the spec but absent from the given sources, which
contain only its client.  The definitions below are therefore modelled
from the specification text. -/

/-- Modelled from the spec: the error taxonomy of section 7, covering the
failure kinds of the absent backend. -/
inductive ErrKind where
  | unsupportedLanguage
  | parseError
  | authFailure
  | rateLimited
  | timeout
  | invalidResponse
  | emptyBatch
  | tooManyFiles
  | payloadTooLarge
  | notFound
  | notReady
  | cancelled
  deriving DecidableEq, Repr

/-- Modelled from the spec: the source span of a documentable unit — unit kind
plus start and stop offsets into the file content (section 3,
DocumentedUnit). -/
structure SourceSpan where
  kind : String
  start : Nat
  stop : Nat
  deriving DecidableEq, Repr

/-- Modelled from the spec: generation status of a DocumentedUnit —
ok, skipped, or failed with a reason (section 3).  All three are terminal:
the assembler only ever sees units whose generation has finished. -/
inductive GenStatus where
  | ok
  | skipped
  | failed (reason : ErrKind)
  deriving DecidableEq, Repr

/-- Modelled from the spec: a DocumentedUnit — source span, generated
documentation text, and generation status (section 3).  Text is a list of
characters so byte-level round-trip statements are direct. -/
structure DocumentedUnit where
  span : SourceSpan
  doc : List Char
  status : GenStatus
  deriving DecidableEq, Repr

/-- A unit whose generation failed. -/
def isFailedUnit (u : DocumentedUnit) : Bool :=
  match u.status with
  | GenStatus.failed _ => true
  | _ => false

/-- Modelled from the spec: the documentation text the inline assembler
inserts before the span of a unit — the generated text for a successful unit,
nothing for a skipped or failed unit, which is left un-annotated
(section 4.4). -/
def inlineDoc (u : DocumentedUnit) : List Char :=
  match u.status with
  | GenStatus.ok => u.doc
  | _ => []

/-- Modelled from the spec: the inline format of the File Assembler
(section 4.4), walking the ordered units from position pos — it emits the
source bytes up to the span of the next unit, inserts the documentation of that unit
immediately before the span, and continues from the span start so every
source byte is preserved verbatim. -/
def assembleInlineFrom (content : List Char) : Nat → List DocumentedUnit → List Char
  | pos, [] => content.drop pos
  | pos, u :: rest =>
      (content.drop pos).take (u.span.start - pos)
        ++ (inlineDoc u ++ assembleInlineFrom content u.span.start rest)

/-- Modelled from the spec: inline assembly of a whole file (section 4.4). -/
def assembleInline (content : List Char) (units : List DocumentedUnit) : List Char :=
  assembleInlineFrom content 0 units

/-- Modelled from the spec: the file-level error summary flags every unit
whose generation failed (section 4.4). -/
def fileErrorSummary (units : List DocumentedUnit) : List DocumentedUnit :=
  units.filter isFailedUnit

/-- The guarantee from the extractor the assembler relies on: unit spans are
ordered — each span starts at or after the walking position, and the tail
is ordered from the start of that span. -/
def spansOrderedFrom : Nat → List DocumentedUnit → Prop
  | _, [] => True
  | pos, u :: rest => pos ≤ u.span.start ∧ spansOrderedFrom u.span.start rest

/-! ## Job progress model (spec sections 3 and 4.5) -/

/-- Modelled from the spec: the lifecycle state of the generation of one unit
inside a FileTask — pending, running, then terminal ok or failed
(section 3, FileTask/DocumentedUnit status). -/
inductive UnitState where
  | pending
  | running
  | ok
  | failed
  deriving DecidableEq, Repr

/-- A unit state is terminal when the unit completed, successfully or not;
the spec counts both as progress units (section 9, open question
resolution). -/
def UnitState.isTerminal : UnitState → Bool
  | UnitState.ok => true
  | UnitState.failed => true
  | _ => false

/-- The unit states of one FileTask, in source order. -/
abbrev FileTaskUnits := List UnitState

/-- The unit states of a whole Job: one list per FileTask. -/
abbrev JobUnits := List FileTaskUnits

/-- Completed (terminal) units of one FileTask. -/
def doneCount (t : FileTaskUnits) : Nat :=
  (t.filter UnitState.isTerminal).length

/-- Modelled from the spec: total units across all files (section 4.5). -/
def totalUnits (js : JobUnits) : Nat :=
  (js.map List.length).sum

/-- Modelled from the spec: units completed across all files
(section 4.5). -/
def doneUnits (js : JobUnits) : Nat :=
  (js.map doneCount).sum

/-- Modelled from the spec: progress is (units completed across all files)
divided by (total units across all files), on the 0-100 scale
(section 4.5). -/
def progress (js : JobUnits) : Nat :=
  100 * doneUnits js / totalUnits js

/-- Modelled from the spec: the transitions the generation of a single unit can
take — dispatch, then successful or failed completion; terminal states
never transition again (section 3 lifecycle, glossary). -/
inductive UnitStep : UnitState → UnitState → Prop where
  | start : UnitStep UnitState.pending UnitState.running
  | finishOk : UnitStep UnitState.running UnitState.ok
  | finishFailed : UnitStep UnitState.running UnitState.failed

/-- One element of a list takes an R step, the rest are unchanged. -/
inductive ListStep (R : α → α → Prop) : List α → List α → Prop where
  | head : ∀ {a b : α} {l : List α}, R a b → ListStep R (a :: l) (b :: l)
  | tail : ∀ {a : α} {l l2 : List α}, ListStep R l l2 → ListStep R (a :: l) (a :: l2)

/-- Modelled from the spec: a scheduler event of the Job Manager advances
exactly one unit of one FileTask; progress is recomputed on each such
event (section 4.5). -/
def JobStep : JobUnits → JobUnits → Prop :=
  ListStep (ListStep UnitStep)

/-- Every unit of the FileTask is terminal. -/
def taskAllTerminal (t : FileTaskUnits) : Prop :=
  ∀ u ∈ t, u.isTerminal = true

/-- Every FileTask of the Job has reached a terminal state: all of its
units are done or failed. -/
def jobAllTerminal (js : JobUnits) : Prop :=
  ∀ t ∈ js, taskAllTerminal t

/-! ## Provider Adapter, Unit Documenter, extractor and Job Manager runs -/

/-- Modelled from the spec: the typed result of one Provider Adapter call
(section 4.2). -/
inductive ProviderResult where
  | ok (text : String)
  | authFailure
  | rateLimited
  | timeout
  | invalidResponse
  deriving DecidableEq, Repr

/-- Modelled from the spec: the outcome of documenting one unit after the
bounded retry policy — success, a unit-level failure carried as data, or a
fatal job-wide auth failure (sections 4.2-4.3). -/
inductive GenOutcome where
  | success (text : String)
  | unitFailed (reason : ErrKind)
  | fatal
  deriving DecidableEq, Repr

/-- Modelled from the spec: the retry loop of the Unit Documenter over the
Provider Adapter (sections 4.2-4.3).  The adapter behavior is an oracle
giving the result of the nth provider call process-wide; ctr is the index
of the next call.  AuthFailure is fatal with no retry; RateLimited and
Timeout are retried while the retry budget rl lasts; InvalidResponse is
retried while its own budget inv lasts (the spec retries it once, inv = 1);
exhaustion returns a failed outcome as data, never an exception.  Returns
the outcome and the call counter after the loop. -/
def generateWithRetry (oracle : Nat → ProviderResult) (ctr rl inv : Nat) :
    GenOutcome × Nat :=
  match oracle ctr, rl, inv with
  | ProviderResult.ok t, _, _ => (GenOutcome.success t, ctr + 1)
  | ProviderResult.authFailure, _, _ => (GenOutcome.fatal, ctr + 1)
  | ProviderResult.rateLimited, 0, _ =>
      (GenOutcome.unitFailed ErrKind.rateLimited, ctr + 1)
  | ProviderResult.rateLimited, r + 1, i => generateWithRetry oracle (ctr + 1) r i
  | ProviderResult.timeout, 0, _ => (GenOutcome.unitFailed ErrKind.timeout, ctr + 1)
  | ProviderResult.timeout, r + 1, i => generateWithRetry oracle (ctr + 1) r i
  | ProviderResult.invalidResponse, _, 0 =>
      (GenOutcome.unitFailed ErrKind.invalidResponse, ctr + 1)
  | ProviderResult.invalidResponse, r, i + 1 => generateWithRetry oracle (ctr + 1) r i
termination_by rl + inv

/-- Modelled from the spec: the input of a FileTask — source filename, raw
content and declared language (section 3). -/
structure FileSpec where
  name : String
  content : List Char
  language : String
  deriving DecidableEq, Repr

/-- Modelled from the spec: the pluggable language grammars consumed by the
Source Unit Extractor — a registered language maps to a grammar, which
parses content to ordered unit spans or fails (section 4.1). -/
abbrev Grammars := String → Option (List Char → Option (List SourceSpan))

/-- Modelled from the spec: the Source Unit Extractor contract
(section 4.1): UnsupportedLanguage when the language is not registered,
ParseError when the grammar cannot parse the content, otherwise the
ordered unit spans. -/
def extract (grammars : Grammars) (content : List Char) (language : String) :
    Except ErrKind (List SourceSpan) :=
  match grammars language with
  | none => Except.error ErrKind.unsupportedLanguage
  | some g =>
      match g content with
      | none => Except.error ErrKind.parseError
      | some spans => Except.ok spans

/-- Modelled from the spec: the whole-file fallback unit, always available
(section 4.1). -/
def wholeFileUnit (content : List Char) : SourceSpan :=
  { kind := "module", start := 0, stop := content.length }

/-- Modelled from the spec: extraction with graceful degradation — a
ParseError degrades to treating the whole file as one unit (section 4.1). -/
def extractWithFallback (grammars : Grammars) (content : List Char)
    (language : String) : Except ErrKind (List SourceSpan) :=
  match extract grammars content language with
  | Except.error ErrKind.parseError => Except.ok [wholeFileUnit content]
  | r => r

/-- Modelled from the spec: the extraction contract as a relation between
the input of one call and its returned ordered sequence of unit descriptors —
either the grammar parses the content, or extraction degrades to the
whole-file unit (section 4.1). -/
inductive ExtractRel (grammars : Grammars) (content : List Char) (language : String) :
    List SourceSpan → Prop where
  | parsed : ∀ {g spans}, grammars language = some g → g content = some spans →
      ExtractRel grammars content language spans
  | fallback : ∀ {g}, grammars language = some g → g content = none →
      ExtractRel grammars content language [wholeFileUnit content]

/-- Modelled from the spec: the fan-out of Unit Documenter calls over the
extracted units of one file.  Failures are data: a failed unit is recorded with
its terminal error kind and siblings continue; only a fatal AuthFailure
aborts (sections 4.3, 7). -/
def runUnits (oracle : Nat → ProviderResult) (rl inv : Nat) :
    Nat → List SourceSpan → Except Unit (List DocumentedUnit) × Nat
  | ctr, [] => (Except.ok [], ctr)
  | ctr, s :: rest =>
      match generateWithRetry oracle ctr rl inv with
      | (GenOutcome.fatal, c2) => (Except.error (), c2)
      | (GenOutcome.success t, c2) =>
          match runUnits oracle rl inv c2 rest with
          | (Except.error e, c3) => (Except.error e, c3)
          | (Except.ok ds, c3) =>
              (Except.ok ({ span := s, doc := t.toList, status := GenStatus.ok } :: ds), c3)
      | (GenOutcome.unitFailed reason, c2) =>
          match runUnits oracle rl inv c2 rest with
          | (Except.error e, c3) => (Except.error e, c3)
          | (Except.ok ds, c3) =>
              (Except.ok ({ span := s, doc := [], status := GenStatus.failed reason } :: ds), c3)

/-- Modelled from the spec: the per-file artifact record the Job Manager
aggregates — filename, ordered unit results, and the file-level error if
any (section 3, FileTask). -/
structure FileTaskResult where
  name : String
  units : List DocumentedUnit
  fileError : Option ErrKind
  deriving DecidableEq, Repr

/-- Modelled from the spec: one FileTask run — extraction (degrading to the
whole-file unit on ParseError, recording the error at file level), then
unit generation; an unsupported language is a file-level failure that
issues no provider calls; only a fatal AuthFailure escapes (sections 4.1,
4.5, 7). -/
def runFileTask (grammars : Grammars) (oracle : Nat → ProviderResult)
    (rl inv ctr : Nat) (f : FileSpec) : Except Unit FileTaskResult × Nat :=
  match extract grammars f.content f.language with
  | Except.error ErrKind.parseError =>
      match runUnits oracle rl inv ctr [wholeFileUnit f.content] with
      | (Except.error e, c2) => (Except.error e, c2)
      | (Except.ok ds, c2) =>
          (Except.ok { name := f.name, units := ds, fileError := some ErrKind.parseError }, c2)
  | Except.error e => (Except.ok { name := f.name, units := [], fileError := some e }, ctr)
  | Except.ok spans =>
      match runUnits oracle rl inv ctr spans with
      | (Except.error e, c2) => (Except.error e, c2)
      | (Except.ok ds, c2) =>
          (Except.ok { name := f.name, units := ds, fileError := none }, c2)

/-- Modelled from the spec: the fan-out of the Job Manager over the
FileTasks of the batch, threading the process-wide call counter (section 4.5). -/
def runFiles (grammars : Grammars) (oracle : Nat → ProviderResult) (rl inv : Nat) :
    Nat → List FileSpec → Except Unit (List FileTaskResult) × Nat
  | ctr, [] => (Except.ok [], ctr)
  | ctr, f :: rest =>
      match runFileTask grammars oracle rl inv ctr f with
      | (Except.error e, c2) => (Except.error e, c2)
      | (Except.ok r, c2) =>
          match runFiles grammars oracle rl inv c2 rest with
          | (Except.error e, c3) => (Except.error e, c3)
          | (Except.ok rs, c3) => (Except.ok (r :: rs), c3)

/-- Modelled from the spec: the terminal disposition of a Job
(section 4.5). -/
inductive JobFinal where
  | completed (files : List FileTaskResult)
  | failed (reason : ErrKind)
  deriving DecidableEq, Repr

/-- Modelled from the spec: a whole batch job run by the Job Manager —
zero files accepted fails the job, a fatal AuthFailure from the adapter
fails the job, and otherwise the job completes with per-file results,
per-file and per-unit failures recorded as data (sections 4.5, 7).
Returns the disposition and the number of provider calls issued. -/
def runJob (grammars : Grammars) (oracle : Nat → ProviderResult) (rl inv : Nat)
    (files : List FileSpec) : JobFinal × Nat :=
  if files.isEmpty then (JobFinal.failed ErrKind.emptyBatch, 0)
  else
    match runFiles grammars oracle rl inv 0 files with
    | (Except.error _, c) => (JobFinal.failed ErrKind.authFailure, c)
    | (Except.ok rs, c) => (JobFinal.completed rs, c)

/-- Modelled from the spec: submission-time configuration limits
(section 6). -/
structure SubmitLimits where
  maxFiles : Nat
  maxPayloadBytes : Nat
  deriving DecidableEq, Repr

/-- Total payload size of a submission. -/
def payloadSize (files : List FileSpec) : Nat :=
  (files.map (fun f => f.content.length)).sum

/-- Modelled from the spec: submit validation (section 4.5) — EmptyBatch
when no files, TooManyFiles then PayloadTooLarge when a configured limit
is exceeded. -/
def validateSubmit (limits : SubmitLimits) (files : List FileSpec) :
    Except ErrKind Unit :=
  if files.isEmpty then Except.error ErrKind.emptyBatch
  else if limits.maxFiles < files.length then Except.error ErrKind.tooManyFiles
  else if limits.maxPayloadBytes < payloadSize files then
    Except.error ErrKind.payloadTooLarge
  else Except.ok ()

/-- Modelled from the spec: the Result Store, job-scoped keyed storage of
job dispositions (sections 2-3). -/
abbrev ResultStore := List (String × JobFinal)

/-- Modelled from the spec: submit (sections 4.5, 7) — a validation error
returns synchronously, leaves the Result Store unchanged and issues no
Provider Adapter call; on success the job id is returned, the job record
enters the store and the asynchronous run of the job issues the adapter
calls.  Returns the response, the store afterwards, and the number of
adapter calls issued. -/
def submit (limits : SubmitLimits) (grammars : Grammars)
    (oracle : Nat → ProviderResult) (rl inv : Nat) (store : ResultStore)
    (newId : String) (files : List FileSpec) :
    Except ErrKind String × ResultStore × Nat :=
  match validateSubmit limits files with
  | Except.error e => (Except.error e, store, 0)
  | Except.ok _ =>
      let r := runJob grammars oracle rl inv files
      (Except.ok newId, (newId, r.1) :: store, r.2)

/-! ## Lemmas about the polling loop -/

/-- Every request the polling interval issues is a batchStatus query for
the job being polled. -/
theorem runPolling_calls (jobId : String) (responses : List BatchStatus) :
    ∀ c ∈ (runPolling jobId responses).1, c = ApiCall.batchStatus jobId := by
  induction responses with
  | nil => simp [runPolling]
  | cons s rest ih =>
    by_cases h : isTerminalTag s.status
    · simp [runPolling, h]
    · intro c hc
      simp only [runPolling, h, if_neg, Bool.false_eq_true, ite_false,
        List.mem_cons] at hc
      rcases hc with hc | hc
      · exact hc
      · exact ih c hc

/-- The polling loop stores exactly the leading non-terminal snapshots
followed by the first terminal one, and issues one batchStatus request per
stored snapshot. -/
theorem runPolling_snapshots (jobId : String) (responses : List BatchStatus) :
    (runPolling jobId responses).2 = polledPrefix responses ∧
    (runPolling jobId responses).1 =
      (polledPrefix responses).map (fun _ => ApiCall.batchStatus jobId) := by
  induction responses with
  | nil => simp [runPolling, polledPrefix]
  | cons s rest ih =>
    by_cases h : isTerminalTag s.status
    · simp [runPolling, polledPrefix, h]
    · refine ⟨?_, ?_⟩
      · simpa [runPolling, polledPrefix, h,
          List.takeWhile_cons, List.dropWhile_cons] using ih.1
      · simpa [runPolling, polledPrefix, h,
          List.takeWhile_cons, List.dropWhile_cons] using ih.2

/-! ## Claim theorems for the client -/

/-- Claim C8 (counterexample): as stated, the claim requires the client to
retrieve the artifacts of the job after the terminal status arrives; on the
concrete schedule that reports completed on the first tick, the polling
loop stores that terminal snapshot yet issues no fetchResult request. -/
theorem c8_no_artifact_fetch_cex :
    (∃ s ∈ (runPolling "job-1" [⟨JobStatusTag.completed, 100, "done"⟩]).2,
        isTerminalTag s.status = true) ∧
    ApiCall.fetchResult "job-1" ∉
      (runPolling "job-1" [⟨JobStatusTag.completed, 100, "done"⟩]).1 := by
  decide

/-- Claim C8 (amended): the polling loop of BatchPanel.start clears its
interval exactly when the reported status is completed or failed — it
stores the leading non-terminal snapshots and then the first terminal one,
issuing one batchStatus request per stored snapshot — and it never issues
an artifact-retrieval request. -/
theorem c8_polling_stops_at_terminal (jobId : String) (responses : List BatchStatus) :
    (runPolling jobId responses).2 = polledPrefix responses ∧
    (runPolling jobId responses).1 =
      (polledPrefix responses).map (fun _ => ApiCall.batchStatus jobId) ∧
    ∀ j, ApiCall.fetchResult j ∉ (runPolling jobId responses).1 := by
  refine ⟨(runPolling_snapshots jobId responses).1,
    (runPolling_snapshots jobId responses).2, ?_⟩
  intro j hj
  have := runPolling_calls jobId responses _ hj
  exact ApiCall.noConfusion this

/-- Claim C9: when the loading prop of Button is true, the rendered html
button carries the disabled attribute (disabled = loading or disabled), so
a click cannot re-trigger an in-flight request. -/
theorem c9_loading_renders_disabled (p : ButtonProps) (h : p.loading = some true) :
    (renderButton p).disabledAttr = true := by
  simp [renderButton, h]

/-- Witness for claim C9 at a concrete prop record. -/
theorem c9_loading_renders_disabled_witness :
    (renderButton ⟨"primary", "md", "", some true, none⟩).disabledAttr = true :=
  c9_loading_renders_disabled ⟨"primary", "md", "", some true, none⟩ rfl

/-- Claim C10: the client never issues a request with an empty selection —
FilePanel.handle issues nothing when no file is selected, BatchPanel.start
issues nothing when the selected file list is empty, and every startBatch
request that is issued carries the nonempty selected list, so the
EmptyBatch branch of the service is unreachable from this client. -/
theorem c10_no_empty_selection_requests :
    (∀ provider model style verbosity,
        filePanelHandle none provider model style verbosity = []) ∧
    (∀ opts jobId responses, batchPanelStart [] opts jobId responses = []) ∧
    (∀ files opts jobId responses names o2,
        ApiCall.startBatch names o2 ∈ batchPanelStart files opts jobId responses →
          names = files ∧ files ≠ []) := by
  refine ⟨fun _ _ _ _ => rfl, fun _ _ _ => rfl, ?_⟩
  intro files opts jobId responses names o2 hmem
  by_cases hf : files.isEmpty
  · simp [batchPanelStart, hf] at hmem
  · simp only [batchPanelStart, hf, Bool.false_eq_true, ite_false,
      List.mem_cons] at hmem
    rcases hmem with hmem | hmem
    · cases hmem
      exact ⟨rfl, by simpa [List.isEmpty_iff] using hf⟩
    · exact absurd (runPolling_calls jobId responses _ hmem)
        (fun h => ApiCall.noConfusion h)

/-- Witness for claim C10: the empty-selection guards at concrete inputs,
via the claim theorem. -/
theorem c10_no_empty_selection_requests_witness :
    filePanelHandle none "deepseek" "deepseek-r1" "google" "medium" = [] ∧
    batchPanelStart [] ⟨"deepseek", "deepseek-r1", "google", "medium", "markdown"⟩
      "job-1" [] = [] :=
  ⟨c10_no_empty_selection_requests.1 "deepseek" "deepseek-r1" "google" "medium",
   c10_no_empty_selection_requests.2.1
     ⟨"deepseek", "deepseek-r1", "google", "medium", "markdown"⟩ "job-1" []⟩

/-! ## File Assembler lemmas and claim C2 -/

/-- Splitting the tail of the content at the next span start: the bytes
from pos are the gap up to the span start followed by the bytes from the
span start, whenever pos precedes the span start. -/
theorem drop_split_at (content : List Char) (pos s : Nat) (h : pos ≤ s) :
    content.drop pos = (content.drop pos).take (s - pos) ++ content.drop s := by
  have hd : content.drop s = (content.drop pos).drop (s - pos) := by
    rw [List.drop_drop]
    congr 1
    omega
  rw [hd, List.take_append_drop]

/-- Round trip of inline assembly: for ordered spans, the source bytes from
the walking position form a sublist of the assembled output — every
original byte is present, unchanged and in original order. -/
theorem drop_sublist_assembleInlineFrom (content : List Char) :
    ∀ (units : List DocumentedUnit) (pos : Nat), spansOrderedFrom pos units →
      (content.drop pos).Sublist (assembleInlineFrom content pos units) := by
  intro units
  induction units with
  | nil =>
    intro pos _
    simp [assembleInlineFrom]
  | cons u rest ih =>
    intro pos h
    obtain ⟨hle, hrest⟩ := h
    rw [assembleInlineFrom]
    conv_lhs => rw [drop_split_at content pos u.span.start hle]
    exact List.Sublist.append_left
      ((ih u.span.start hrest).trans (List.sublist_append_right _ _)) _

/-- When no unit inserts documentation, inline assembly reproduces the
source bytes exactly. -/
theorem assembleInlineFrom_no_insert (content : List Char) :
    ∀ (units : List DocumentedUnit) (pos : Nat), spansOrderedFrom pos units →
      (∀ u ∈ units, inlineDoc u = []) →
      assembleInlineFrom content pos units = content.drop pos := by
  intro units
  induction units with
  | nil =>
    intro pos _ _
    simp [assembleInlineFrom]
  | cons u rest ih =>
    intro pos h hdoc
    obtain ⟨hle, hrest⟩ := h
    rw [assembleInlineFrom, hdoc u (List.mem_cons_self u rest),
      ih u.span.start hrest (fun v hv => hdoc v (List.mem_cons_of_mem u hv)),
      List.nil_append, ← drop_split_at content pos u.span.start hle]

/-- Claim C2: for a file whose units are all terminal (the only states a
DocumentedUnit carries), inline assembly over ordered spans keeps every
original source byte unchanged and in original order (the content is a
sublist of the output), and each unit whose generation failed is left
un-annotated, appears in the file-level error summary, and is never
silently dropped; when every unit failed, the output is exactly the
original content. -/
theorem c2_inline_round_trip (content : List Char) (units : List DocumentedUnit)
    (hord : spansOrderedFrom 0 units) :
    content.Sublist (assembleInline content units) ∧
    (∀ u ∈ units, isFailedUnit u = true →
        inlineDoc u = [] ∧ u ∈ fileErrorSummary units) ∧
    ((∀ u ∈ units, isFailedUnit u = true) →
        assembleInline content units = content) := by
  refine ⟨?_, ?_, ?_⟩
  · have := drop_sublist_assembleInlineFrom content units 0 hord
    simpa [assembleInline] using this
  · intro u hu hf
    refine ⟨?_, ?_⟩
    · unfold inlineDoc
      unfold isFailedUnit at hf
      cases hst : u.status with
      | ok => rw [hst] at hf; simp at hf
      | skipped => rfl
      | failed r => rfl
    · simp [fileErrorSummary, List.mem_filter, hu, hf]
  · intro hall
    have hdoc : ∀ u ∈ units, inlineDoc u = [] := by
      intro u hu
      have hf := hall u hu
      unfold isFailedUnit at hf
      unfold inlineDoc
      cases hst : u.status with
      | ok => rw [hst] at hf; simp at hf
      | skipped => rfl
      | failed r => rfl
    have := assembleInlineFrom_no_insert content units 0 hord hdoc
    simpa [assembleInline] using this

/-- Witness for claim C2: a three-byte file with one successful unit at
span 1-2 and one failed unit at span 2-3. -/
theorem c2_inline_round_trip_witness :
    (['a', 'b', 'c'] : List Char).Sublist
      (assembleInline ['a', 'b', 'c']
        [⟨⟨"function", 1, 2⟩, ['D'], GenStatus.ok⟩,
         ⟨⟨"function", 2, 3⟩, [], GenStatus.failed ErrKind.rateLimited⟩]) ∧
    (∀ u ∈ [(⟨⟨"function", 1, 2⟩, ['D'], GenStatus.ok⟩ : DocumentedUnit),
            ⟨⟨"function", 2, 3⟩, [], GenStatus.failed ErrKind.rateLimited⟩],
        isFailedUnit u = true →
        inlineDoc u = [] ∧
        u ∈ fileErrorSummary
          [⟨⟨"function", 1, 2⟩, ['D'], GenStatus.ok⟩,
           ⟨⟨"function", 2, 3⟩, [], GenStatus.failed ErrKind.rateLimited⟩]) ∧
    ((∀ u ∈ [(⟨⟨"function", 1, 2⟩, ['D'], GenStatus.ok⟩ : DocumentedUnit),
             ⟨⟨"function", 2, 3⟩, [], GenStatus.failed ErrKind.rateLimited⟩],
        isFailedUnit u = true) →
        assembleInline ['a', 'b', 'c']
          [⟨⟨"function", 1, 2⟩, ['D'], GenStatus.ok⟩,
           ⟨⟨"function", 2, 3⟩, [], GenStatus.failed ErrKind.rateLimited⟩]
          = ['a', 'b', 'c']) :=
  c2_inline_round_trip ['a', 'b', 'c']
    [⟨⟨"function", 1, 2⟩, ['D'], GenStatus.ok⟩,
     ⟨⟨"function", 2, 3⟩, [], GenStatus.failed ErrKind.rateLimited⟩]
    ⟨by decide, by decide, trivial⟩

/-! ## Progress lemmas and claim C1 -/

/-- A unit that takes a step was not terminal before it. -/
theorem UnitStep.src_not_terminal {a b : UnitState} (h : UnitStep a b) :
    a.isTerminal = false := by
  cases h <;> rfl

/-- A step inside one FileTask keeps the number of units. -/
theorem taskStep_length {t t2 : FileTaskUnits} (h : ListStep UnitStep t t2) :
    t2.length = t.length := by
  induction h with
  | head _ => rfl
  | tail _ ih => simpa using ih

/-- Unfolding the completed-unit count over a cons cell. -/
theorem doneCount_cons (x : UnitState) (l : FileTaskUnits) :
    doneCount (x :: l) = (if x.isTerminal = true then 1 else 0) + doneCount l := by
  unfold doneCount
  rw [List.filter_cons]
  split
  · simp [Nat.add_comm]
  · simp

/-- A step inside one FileTask never decreases its completed-unit count. -/
theorem taskStep_doneCount_mono {t t2 : FileTaskUnits} (h : ListStep UnitStep t t2) :
    doneCount t ≤ doneCount t2 := by
  induction h with
  | head hab =>
    rename_i b l
    rw [doneCount_cons, doneCount_cons, hab.src_not_terminal]
    by_cases hb : b.isTerminal = true <;> simp [hb]
  | tail hstep ih =>
    rw [doneCount_cons, doneCount_cons]
    exact Nat.add_le_add_left ih _

/-- A scheduler event keeps the total unit count of the job. -/
theorem jobStep_totalUnits {js js2 : JobUnits} (h : JobStep js js2) :
    totalUnits js2 = totalUnits js := by
  induction h with
  | head hab => simp [totalUnits, taskStep_length hab]
  | tail _ ih =>
    simp only [totalUnits, List.map_cons, List.sum_cons] at ih ⊢
    omega

/-- A scheduler event never decreases the completed-unit count of the
job. -/
theorem jobStep_doneUnits_mono {js js2 : JobUnits} (h : JobStep js js2) :
    doneUnits js ≤ doneUnits js2 := by
  induction h with
  | head hab =>
    simp only [doneUnits, List.map_cons, List.sum_cons]
    exact Nat.add_le_add_right (taskStep_doneCount_mono hab) _
  | tail _ ih =>
    simp only [doneUnits, List.map_cons, List.sum_cons] at ih ⊢
    omega

/-- Completed units never exceed total units. -/
theorem doneUnits_le_totalUnits (js : JobUnits) : doneUnits js ≤ totalUnits js := by
  induction js with
  | nil => simp [doneUnits, totalUnits]
  | cons t rest ih =>
    simp only [doneUnits, totalUnits, List.map_cons, List.sum_cons] at ih ⊢
    have := List.length_filter_le UnitState.isTerminal t
    exact Nat.add_le_add this ih

/-- One FileTask has all units completed exactly when its completed count
reaches its length. -/
theorem doneCount_eq_length_iff (t : FileTaskUnits) :
    doneCount t = t.length ↔ taskAllTerminal t := by
  unfold doneCount taskAllTerminal
  constructor
  · intro h
    have heq : t.filter UnitState.isTerminal = t :=
      (List.filter_sublist t).eq_of_length h
    intro u hu
    exact List.of_mem_filter (heq ▸ hu)
  · intro h
    rw [List.filter_eq_self.mpr h]

/-- The completed count of the job reaches its total exactly when every
FileTask is terminal. -/
theorem doneUnits_eq_totalUnits_iff (js : JobUnits) :
    doneUnits js = totalUnits js ↔ jobAllTerminal js := by
  induction js with
  | nil => simp [doneUnits, totalUnits, jobAllTerminal]
  | cons t rest ih =>
    simp only [doneUnits, totalUnits, List.map_cons, List.sum_cons]
    have h1 : doneCount t ≤ t.length := List.length_filter_le _ _
    have h2 : doneUnits rest ≤ totalUnits rest := doneUnits_le_totalUnits rest
    simp only [doneUnits, totalUnits] at h2 ih
    constructor
    · intro h
      have hsplit : doneCount t = t.length ∧
          (List.map doneCount rest).sum = (List.map List.length rest).sum := by
        omega
      intro x hx
      rcases List.mem_cons.mp hx with hx | hx
      · exact hx ▸ (doneCount_eq_length_iff t).mp hsplit.1
      · exact ih.mp hsplit.2 x hx
    · intro h
      have ht : doneCount t = t.length :=
        (doneCount_eq_length_iff t).mpr (h t (List.mem_cons_self t rest))
      have hr : (List.map doneCount rest).sum = (List.map List.length rest).sum :=
        ih.mpr (fun x hx => h x (List.mem_cons_of_mem t hx))
      omega

/-- With at least one unit present, progress reads 100 exactly when every
unit has completed. -/
theorem progress_eq_100_iff (js : JobUnits) (h : 0 < totalUnits js) :
    progress js = 100 ↔ doneUnits js = totalUnits js := by
  unfold progress
  constructor
  · intro hp
    have hle : doneUnits js ≤ totalUnits js := doneUnits_le_totalUnits js
    have h100 : 100 ≤ 100 * doneUnits js / totalUnits js := hp.ge
    have := (Nat.le_div_iff_mul_le h).mp h100
    omega
  · intro he
    rw [he]
    exact Nat.mul_div_cancel 100 h

/-- A single scheduler event never decreases progress. -/
theorem jobStep_progress_mono {js js2 : JobUnits} (h : JobStep js js2) :
    progress js ≤ progress js2 := by
  unfold progress
  rw [jobStep_totalUnits h]
  exact Nat.div_le_div_right (Nat.mul_le_mul_left 100 (jobStep_doneUnits_mono h))

/-- The total unit count is invariant along any sequence of scheduler
events. -/
theorem jobChain_totalUnits {js js2 : JobUnits}
    (hsteps : Relation.ReflTransGen JobStep js js2) :
    totalUnits js2 = totalUnits js := by
  induction hsteps with
  | refl => rfl
  | tail _ hstep ih => rw [jobStep_totalUnits hstep, ih]

/-- Claim C1: over any sequence of scheduler events of a submitted job,
the progress reported to status polling is monotonically non-decreasing,
and it equals exactly 100 if and only if every FileTask of the job has
reached a terminal state (all units done or failed). -/
theorem c1_progress_monotone_and_complete (js js2 : JobUnits)
    (hsteps : Relation.ReflTransGen JobStep js js2) (hpos : 0 < totalUnits js) :
    progress js ≤ progress js2 ∧ (progress js2 = 100 ↔ jobAllTerminal js2) := by
  have hmono : progress js ≤ progress js2 := by
    induction hsteps with
    | refl => exact Nat.le_refl _
    | tail _ hstep ih => exact ih.trans (jobStep_progress_mono hstep)
  refine ⟨hmono, ?_⟩
  rw [progress_eq_100_iff js2 ((jobChain_totalUnits hsteps) ▸ hpos)]
  exact doneUnits_eq_totalUnits_iff js2

/-- Witness for claim C1: a one-file, one-unit job stepped from pending
through running to ok. -/
theorem c1_progress_monotone_and_complete_witness :
    progress [[UnitState.pending]] ≤ progress [[UnitState.ok]] ∧
    (progress [[UnitState.ok]] = 100 ↔ jobAllTerminal [[UnitState.ok]]) :=
  c1_progress_monotone_and_complete [[UnitState.pending]] [[UnitState.ok]]
    (Relation.ReflTransGen.trans
      (Relation.ReflTransGen.single (ListStep.head (ListStep.head UnitStep.start)))
      (Relation.ReflTransGen.single (ListStep.head (ListStep.head UnitStep.finishOk))))
    (by decide)

/-! ## Retry-loop lemmas -/

/-- The retry loop issues at most 1 + rl + inv provider calls: the final
counter stays within the initial call plus one call per unit of either
retry budget. -/
theorem generateWithRetry_ctr_le (oracle : Nat → ProviderResult) (ctr rl inv : Nat) :
    (generateWithRetry oracle ctr rl inv).2 ≤ ctr + 1 + rl + inv := by
  induction ctr, rl, inv using generateWithRetry.induct oracle with
  | case1 ctr rl inv t h => rw [generateWithRetry.eq_def]; simp only [h]; omega
  | case2 ctr rl inv h => rw [generateWithRetry.eq_def]; simp only [h]; omega
  | case3 ctr inv h => rw [generateWithRetry.eq_def]; simp only [h]; omega
  | case4 ctr r i h ih => rw [generateWithRetry.eq_def]; simp only [h]; omega
  | case5 ctr inv h => rw [generateWithRetry.eq_def]; simp only [h]; omega
  | case6 ctr r i h ih => rw [generateWithRetry.eq_def]; simp only [h]; omega
  | case7 ctr rl h => rw [generateWithRetry.eq_def]; simp only [h]; omega
  | case8 ctr r i h ih => rw [generateWithRetry.eq_def]; simp only [h]; omega

/-- The retry loop always issues at least one provider call. -/
theorem generateWithRetry_ctr_gt (oracle : Nat → ProviderResult) (ctr rl inv : Nat) :
    ctr < (generateWithRetry oracle ctr rl inv).2 := by
  induction ctr, rl, inv using generateWithRetry.induct oracle with
  | case1 ctr rl inv t h => rw [generateWithRetry.eq_def]; simp only [h]; omega
  | case2 ctr rl inv h => rw [generateWithRetry.eq_def]; simp only [h]; omega
  | case3 ctr inv h => rw [generateWithRetry.eq_def]; simp only [h]; omega
  | case4 ctr r i h ih => rw [generateWithRetry.eq_def]; simp only [h]; omega
  | case5 ctr inv h => rw [generateWithRetry.eq_def]; simp only [h]; omega
  | case6 ctr r i h ih => rw [generateWithRetry.eq_def]; simp only [h]; omega
  | case7 ctr rl h => rw [generateWithRetry.eq_def]; simp only [h]; omega
  | case8 ctr r i h ih => rw [generateWithRetry.eq_def]; simp only [h]; omega

/-- Without an AuthFailure from the adapter, the retry loop never returns
the fatal outcome. -/
theorem generateWithRetry_not_fatal (oracle : Nat → ProviderResult) (ctr rl inv : Nat)
    (hna : ∀ n, oracle n ≠ ProviderResult.authFailure) :
    (generateWithRetry oracle ctr rl inv).1 ≠ GenOutcome.fatal := by
  induction ctr, rl, inv using generateWithRetry.induct oracle with
  | case1 ctr rl inv t h => rw [generateWithRetry.eq_def]; simp [h]
  | case2 ctr rl inv h => exact absurd h (hna ctr)
  | case3 ctr inv h => rw [generateWithRetry.eq_def]; simp [h]
  | case4 ctr r i h ih => rw [generateWithRetry.eq_def]; simp only [h]; exact ih
  | case5 ctr inv h => rw [generateWithRetry.eq_def]; simp [h]
  | case6 ctr r i h ih => rw [generateWithRetry.eq_def]; simp only [h]; exact ih
  | case7 ctr rl h => rw [generateWithRetry.eq_def]; simp [h]
  | case8 ctr r i h ih => rw [generateWithRetry.eq_def]; simp only [h]; exact ih

/-- Under an adapter that always rate-limits, the retry loop exhausts its
budget and reports the unit failed with the RateLimited kind — never an
exception, never a silent drop. -/
theorem generateWithRetry_always_rl (oracle : Nat → ProviderResult) (ctr rl inv : Nat)
    (hrl : ∀ n, oracle n = ProviderResult.rateLimited) :
    (generateWithRetry oracle ctr rl inv).1 =
      GenOutcome.unitFailed ErrKind.rateLimited := by
  induction ctr, rl, inv using generateWithRetry.induct oracle with
  | case1 ctr rl inv t h => rw [hrl ctr] at h; cases h
  | case2 ctr rl inv h => rw [hrl ctr] at h; cases h
  | case3 ctr inv h => rw [generateWithRetry.eq_def]; simp [h]
  | case4 ctr r i h ih => rw [generateWithRetry.eq_def]; simp only [h]; exact ih
  | case5 ctr inv h => rw [hrl ctr] at h; cases h
  | case6 ctr r i h ih => rw [hrl ctr] at h; cases h
  | case7 ctr rl h => rw [hrl ctr] at h; cases h
  | case8 ctr r i h ih => rw [hrl ctr] at h; cases h

/-- An AuthFailure response makes the retry loop return the fatal outcome
immediately, with no retry. -/
theorem generateWithRetry_fatal_of_auth (oracle : Nat → ProviderResult)
    (ctr rl inv : Nat) (h : oracle ctr = ProviderResult.authFailure) :
    generateWithRetry oracle ctr rl inv = (GenOutcome.fatal, ctr + 1) := by
  rw [generateWithRetry.eq_def]
  simp only [h]

/-! ## Unit fan-out lemmas -/

/-- Without AuthFailure, the fan-out over the units of one file returns a result
for every unit — failed units are recorded, siblings continue, nothing is
dropped. -/
theorem runUnits_ok_of_no_auth (oracle : Nat → ProviderResult) (rl inv : Nat)
    (hna : ∀ n, oracle n ≠ ProviderResult.authFailure) :
    ∀ (us : List SourceSpan) (ctr : Nat),
      ∃ ds c2, runUnits oracle rl inv ctr us = (Except.ok ds, c2) ∧
        ds.length = us.length := by
  intro us
  induction us with
  | nil => exact fun ctr => ⟨[], ctr, rfl, rfl⟩
  | cons s rest ih =>
    intro ctr
    rcases hg : generateWithRetry oracle ctr rl inv with ⟨out, c2⟩
    cases out with
    | fatal =>
      have h1 : (generateWithRetry oracle ctr rl inv).1 = GenOutcome.fatal := by
        rw [hg]
      exact absurd h1 (generateWithRetry_not_fatal oracle ctr rl inv hna)
    | success t =>
      obtain ⟨ds, c3, hds, hlen⟩ := ih c2
      refine ⟨{ span := s, doc := t.toList, status := GenStatus.ok } :: ds, c3, ?_, by
        simp [hlen]⟩
      simp only [runUnits, hg, hds]
    | unitFailed reason =>
      obtain ⟨ds, c3, hds, hlen⟩ := ih c2
      refine ⟨{ span := s, doc := [], status := GenStatus.failed reason } :: ds, c3, ?_, by
        simp [hlen]⟩
      simp only [runUnits, hg, hds]

/-- Under an adapter that always rate-limits, the fan-out still returns one
result per unit, and every one is marked failed with the RateLimited
kind. -/
theorem runUnits_all_failed_rl (oracle : Nat → ProviderResult) (rl inv : Nat)
    (hrl : ∀ n, oracle n = ProviderResult.rateLimited) :
    ∀ (us : List SourceSpan) (ctr : Nat),
      ∃ ds c2, runUnits oracle rl inv ctr us = (Except.ok ds, c2) ∧
        ds.length = us.length ∧
        ∀ d ∈ ds, d.status = GenStatus.failed ErrKind.rateLimited := by
  intro us
  induction us with
  | nil => exact fun ctr => ⟨[], ctr, rfl, rfl, by simp⟩
  | cons s rest ih =>
    intro ctr
    rcases hg : generateWithRetry oracle ctr rl inv with ⟨out, c2⟩
    have hout : out = GenOutcome.unitFailed ErrKind.rateLimited := by
      have := generateWithRetry_always_rl oracle ctr rl inv hrl
      rw [hg] at this
      exact this
    subst hout
    obtain ⟨ds, c3, hds, hlen, hall⟩ := ih c2
    refine ⟨{ span := s, doc := [], status := GenStatus.failed ErrKind.rateLimited } :: ds,
      c3, ?_, by simp [hlen], ?_⟩
    · simp only [runUnits, hg, hds]
    · intro d hd
      rcases List.mem_cons.mp hd with hd | hd
      · rw [hd]
      · exact hall d hd

/-- Under an adapter that always returns AuthFailure, the fan-out over a
nonempty unit list aborts after exactly one call. -/
theorem runUnits_auth_cons (oracle : Nat → ProviderResult) (rl inv ctr : Nat)
    (s : SourceSpan) (rest : List SourceSpan)
    (hauth : ∀ n, oracle n = ProviderResult.authFailure) :
    runUnits oracle rl inv ctr (s :: rest) = (Except.error (), ctr + 1) := by
  simp only [runUnits, generateWithRetry_fatal_of_auth oracle ctr rl inv (hauth ctr)]

/-! ## File-task and job lemmas -/

/-- Without AuthFailure, every FileTask run yields a result record: file
and unit failures are captured as data, never escape. -/
theorem runFileTask_ok_of_no_auth (grammars : Grammars) (oracle : Nat → ProviderResult)
    (rl inv : Nat) (hna : ∀ n, oracle n ≠ ProviderResult.authFailure)
    (f : FileSpec) (ctr : Nat) :
    ∃ r c2, runFileTask grammars oracle rl inv ctr f = (Except.ok r, c2) := by
  rcases hx : extract grammars f.content f.language with e | spans
  · cases e
    case parseError =>
      obtain ⟨ds, c2, hds, _⟩ :=
        runUnits_ok_of_no_auth oracle rl inv hna [wholeFileUnit f.content] ctr
      exact ⟨_, c2, by simp only [runFileTask, hx, hds]; rfl⟩
    all_goals exact ⟨_, ctr, by simp only [runFileTask, hx]; rfl⟩
  · obtain ⟨ds, c2, hds, _⟩ := runUnits_ok_of_no_auth oracle rl inv hna spans ctr
    exact ⟨_, c2, by simp only [runFileTask, hx, hds]; rfl⟩

/-- Without AuthFailure, the batch fan-out yields one FileTaskResult per
submitted file. -/
theorem runFiles_ok_of_no_auth (grammars : Grammars) (oracle : Nat → ProviderResult)
    (rl inv : Nat) (hna : ∀ n, oracle n ≠ ProviderResult.authFailure) :
    ∀ (files : List FileSpec) (ctr : Nat),
      ∃ rs c, runFiles grammars oracle rl inv ctr files = (Except.ok rs, c) ∧
        rs.length = files.length := by
  intro files
  induction files with
  | nil => exact fun ctr => ⟨[], ctr, rfl, rfl⟩
  | cons f rest ih =>
    intro ctr
    obtain ⟨r, c2, hr⟩ := runFileTask_ok_of_no_auth grammars oracle rl inv hna f ctr
    obtain ⟨rs, c3, hrs, hlen⟩ := ih c2
    exact ⟨r :: rs, c3, by simp only [runFiles, hr, hrs], by simp [hlen]⟩

/-- Under an adapter that always returns AuthFailure, a FileTask run that
still succeeds issued no provider call: its final counter equals its
initial one. -/
theorem runFileTask_auth_ok_ctr (grammars : Grammars) (oracle : Nat → ProviderResult)
    (rl inv ctr : Nat) (f : FileSpec) (r : FileTaskResult) (c2 : Nat)
    (hauth : ∀ n, oracle n = ProviderResult.authFailure)
    (h : runFileTask grammars oracle rl inv ctr f = (Except.ok r, c2)) :
    c2 = ctr := by
  rcases hx : extract grammars f.content f.language with e | spans
  · cases e
    case parseError =>
      simp only [runFileTask, hx,
        runUnits_auth_cons oracle rl inv ctr (wholeFileUnit f.content) [] hauth] at h
      exact absurd h (by simp)
    all_goals
      simp only [runFileTask, hx] at h
      injection h with h1 h2
      exact h2.symm
  · cases spans with
    | nil =>
      simp only [runFileTask, hx, runUnits] at h
      injection h with h1 h2
      exact h2.symm
    | cons s srest =>
      simp only [runFileTask, hx,
        runUnits_auth_cons oracle rl inv ctr s srest hauth] at h
      exact absurd h (by simp)

/-- Under an adapter that always returns AuthFailure, a batch fan-out that
still succeeds issued no provider call. -/
theorem runFiles_auth_ok_ctr (grammars : Grammars) (oracle : Nat → ProviderResult)
    (rl inv : Nat) (hauth : ∀ n, oracle n = ProviderResult.authFailure) :
    ∀ (files : List FileSpec) (ctr : Nat) (rs : List FileTaskResult) (c : Nat),
      runFiles grammars oracle rl inv ctr files = (Except.ok rs, c) → c = ctr := by
  intro files
  induction files with
  | nil =>
    intro ctr rs c h
    cases h
    rfl
  | cons f rest ih =>
    intro ctr rs c h
    rcases hf : runFileTask grammars oracle rl inv ctr f with ⟨res, c2⟩
    cases res with
    | error e =>
      simp only [runFiles, hf] at h
      exact absurd h (by simp)
    | ok r =>
      rcases hr : runFiles grammars oracle rl inv c2 rest with ⟨res2, c3⟩
      cases res2 with
      | error e =>
        simp only [runFiles, hf, hr] at h
        exact absurd h (by simp)
      | ok rs2 =>
        simp only [runFiles, hf, hr] at h
        injection h with h1 h2
        have e1 : c3 = c2 := ih c2 rs2 c3 hr
        have e2 : c2 = ctr := runFileTask_auth_ok_ctr grammars oracle rl inv ctr f r c2 hauth hf
        omega

/-- Under an adapter that always times out, the retry loop exhausts its
budget and reports the unit failed with the Timeout kind. -/
theorem generateWithRetry_always_to (oracle : Nat → ProviderResult) (ctr rl inv : Nat)
    (hto : ∀ n, oracle n = ProviderResult.timeout) :
    (generateWithRetry oracle ctr rl inv).1 =
      GenOutcome.unitFailed ErrKind.timeout := by
  induction ctr, rl, inv using generateWithRetry.induct oracle with
  | case1 ctr rl inv t h => rw [hto ctr] at h; cases h
  | case2 ctr rl inv h => rw [hto ctr] at h; cases h
  | case3 ctr inv h => rw [hto ctr] at h; cases h
  | case4 ctr r i h ih => rw [hto ctr] at h; cases h
  | case5 ctr inv h => rw [generateWithRetry.eq_def]; simp [h]
  | case6 ctr r i h ih => rw [generateWithRetry.eq_def]; simp only [h]; exact ih
  | case7 ctr rl h => rw [hto ctr] at h; cases h
  | case8 ctr r i h ih => rw [hto ctr] at h; cases h

/-- Under an adapter that always times out, the fan-out still returns one
result per unit, and every one is marked failed with the Timeout kind. -/
theorem runUnits_all_failed_to (oracle : Nat → ProviderResult) (rl inv : Nat)
    (hto : ∀ n, oracle n = ProviderResult.timeout) :
    ∀ (us : List SourceSpan) (ctr : Nat),
      ∃ ds c2, runUnits oracle rl inv ctr us = (Except.ok ds, c2) ∧
        ds.length = us.length ∧
        ∀ d ∈ ds, d.status = GenStatus.failed ErrKind.timeout := by
  intro us
  induction us with
  | nil => exact fun ctr => ⟨[], ctr, rfl, rfl, by simp⟩
  | cons s rest ih =>
    intro ctr
    rcases hg : generateWithRetry oracle ctr rl inv with ⟨out, c2⟩
    have hout : out = GenOutcome.unitFailed ErrKind.timeout := by
      have := generateWithRetry_always_to oracle ctr rl inv hto
      rw [hg] at this
      exact this
    subst hout
    obtain ⟨ds, c3, hds, hlen, hall⟩ := ih c2
    refine ⟨{ span := s, doc := [], status := GenStatus.failed ErrKind.timeout } :: ds,
      c3, ?_, by simp [hlen], ?_⟩
    · simp only [runUnits, hg, hds]
    · intro d hd
      rcases List.mem_cons.mp hd with hd | hd
      · rw [hd]
      · exact hall d hd

/-- A generation that receives only RateLimited or Timeout responses for
its first m calls and then a success, with m within the retry budget,
succeeds after exactly those m retries. -/
theorem generateWithRetry_success_within (oracle : Nat → ProviderResult)
    (inv : Nat) :
    ∀ (m ctr rl : Nat) (t : String),
      (∀ j, j < m → oracle (ctr + j) = ProviderResult.rateLimited ∨
        oracle (ctr + j) = ProviderResult.timeout) →
      oracle (ctr + m) = ProviderResult.ok t → m ≤ rl →
      generateWithRetry oracle ctr rl inv = (GenOutcome.success t, ctr + m + 1) := by
  intro m
  induction m with
  | zero =>
    intro ctr rl t _ hok _
    rw [Nat.add_zero] at hok
    rw [generateWithRetry.eq_def]
    simp [hok]
  | succ m2 ih =>
    intro ctr rl t hpre hok hm
    obtain ⟨r, hr⟩ : ∃ r, rl = r + 1 := ⟨rl - 1, by omega⟩
    subst hr
    have hih := ih (ctr + 1) r t
      (fun j hj => by
        have := hpre (j + 1) (by omega)
        rwa [show ctr + (j + 1) = ctr + 1 + j by omega] at this)
      (by rwa [show ctr + (m2 + 1) = ctr + 1 + m2 by omega] at hok)
      (by omega)
    rcases hpre 0 (Nat.succ_pos m2) with h0 | h0 <;>
      rw [Nat.add_zero] at h0 <;>
      rw [generateWithRetry.eq_def] <;>
      simp only [h0] <;>
      rw [hih] <;>
      simp only [Prod.mk.injEq] <;>
      exact ⟨trivial, by omega⟩

/-- A retry loop that does not end in the fatal outcome consumed no
AuthFailure response: every call index it issued got a different
response. -/
theorem generateWithRetry_no_auth_in_range (oracle : Nat → ProviderResult)
    (ctr rl inv : Nat) :
    (generateWithRetry oracle ctr rl inv).1 ≠ GenOutcome.fatal →
    ∀ k, ctr ≤ k → k < (generateWithRetry oracle ctr rl inv).2 →
      oracle k ≠ ProviderResult.authFailure := by
  induction ctr, rl, inv using generateWithRetry.induct oracle with
  | case1 ctr rl inv t h =>
    have heq : generateWithRetry oracle ctr rl inv = (GenOutcome.success t, ctr + 1) := by
      rw [generateWithRetry.eq_def]; simp [h]
    intro _ k hk1 hk2
    rw [heq] at hk2
    simp only [Prod.snd] at hk2
    rw [show k = ctr by omega, h]
    simp
  | case2 ctr rl inv h =>
    intro hnf
    have heq : generateWithRetry oracle ctr rl inv = (GenOutcome.fatal, ctr + 1) := by
      rw [generateWithRetry.eq_def]; simp [h]
    rw [heq] at hnf
    simp at hnf
  | case3 ctr inv h =>
    have heq : generateWithRetry oracle ctr 0 inv =
        (GenOutcome.unitFailed ErrKind.rateLimited, ctr + 1) := by
      rw [generateWithRetry.eq_def]; simp [h]
    intro _ k hk1 hk2
    rw [heq] at hk2
    simp only [Prod.snd] at hk2
    rw [show k = ctr by omega, h]
    simp
  | case4 ctr r i h ih =>
    have heq : generateWithRetry oracle ctr (r + 1) i =
        generateWithRetry oracle (ctr + 1) r i := by
      rw [generateWithRetry.eq_def]; simp [h]
    intro hnf k hk1 hk2
    rw [heq] at hnf hk2
    rcases Nat.eq_or_lt_of_le hk1 with hk | hk
    · rw [← hk, h]; simp
    · exact ih hnf k hk hk2
  | case5 ctr inv h =>
    have heq : generateWithRetry oracle ctr 0 inv =
        (GenOutcome.unitFailed ErrKind.timeout, ctr + 1) := by
      rw [generateWithRetry.eq_def]; simp [h]
    intro _ k hk1 hk2
    rw [heq] at hk2
    simp only [Prod.snd] at hk2
    rw [show k = ctr by omega, h]
    simp
  | case6 ctr r i h ih =>
    have heq : generateWithRetry oracle ctr (r + 1) i =
        generateWithRetry oracle (ctr + 1) r i := by
      rw [generateWithRetry.eq_def]; simp [h]
    intro hnf k hk1 hk2
    rw [heq] at hnf hk2
    rcases Nat.eq_or_lt_of_le hk1 with hk | hk
    · rw [← hk, h]; simp
    · exact ih hnf k hk hk2
  | case7 ctr rl h =>
    have heq : generateWithRetry oracle ctr rl 0 =
        (GenOutcome.unitFailed ErrKind.invalidResponse, ctr + 1) := by
      rw [generateWithRetry.eq_def]; simp [h]
    intro _ k hk1 hk2
    rw [heq] at hk2
    simp only [Prod.snd] at hk2
    rw [show k = ctr by omega, h]
    simp
  | case8 ctr r i h ih =>
    have heq : generateWithRetry oracle ctr r (i + 1) =
        generateWithRetry oracle (ctr + 1) r i := by
      rw [generateWithRetry.eq_def]; simp [h]
    intro hnf k hk1 hk2
    rw [heq] at hnf hk2
    rcases Nat.eq_or_lt_of_le hk1 with hk | hk
    · rw [← hk, h]; simp
    · exact ih hnf k hk hk2

/-- A successful unit fan-out consumed no AuthFailure response at any call
index it issued. -/
theorem runUnits_no_auth_of_ok (oracle : Nat → ProviderResult) (rl inv : Nat) :
    ∀ (us : List SourceSpan) (ctr : Nat) (ds : List DocumentedUnit) (c2 : Nat),
      runUnits oracle rl inv ctr us = (Except.ok ds, c2) →
      ∀ k, ctr ≤ k → k < c2 → oracle k ≠ ProviderResult.authFailure := by
  intro us
  induction us with
  | nil =>
    intro ctr ds c2 h k hk1 hk2
    simp only [runUnits] at h
    injection h with h1 h2
    omega
  | cons s rest ih =>
    intro ctr ds c2 h k hk1 hk2
    rcases hg : generateWithRetry oracle ctr rl inv with ⟨out, cg⟩
    cases out with
    | fatal =>
      simp only [runUnits, hg] at h
      exact absurd h (by simp)
    | success t =>
      rcases hr : runUnits oracle rl inv cg rest with ⟨res2, c3⟩
      cases res2 with
      | error e =>
        simp only [runUnits, hg, hr] at h
        exact absurd h (by simp)
      | ok ds2 =>
        simp only [runUnits, hg, hr] at h
        injection h with h1 h2
        by_cases hkc : k < cg
        · exact generateWithRetry_no_auth_in_range oracle ctr rl inv
            (by rw [hg]; simp) k hk1 (by rw [hg]; exact hkc)
        · exact ih cg ds2 c3 hr k (by omega) (by omega)
    | unitFailed reason =>
      rcases hr : runUnits oracle rl inv cg rest with ⟨res2, c3⟩
      cases res2 with
      | error e =>
        simp only [runUnits, hg, hr] at h
        exact absurd h (by simp)
      | ok ds2 =>
        simp only [runUnits, hg, hr] at h
        injection h with h1 h2
        by_cases hkc : k < cg
        · exact generateWithRetry_no_auth_in_range oracle ctr rl inv
            (by rw [hg]; simp) k hk1 (by rw [hg]; exact hkc)
        · exact ih cg ds2 c3 hr k (by omega) (by omega)

/-- A FileTask run that completes consumed no AuthFailure response at any
call index it issued. -/
theorem runFileTask_no_auth_of_ok (grammars : Grammars)
    (oracle : Nat → ProviderResult) (rl inv ctr : Nat) (f : FileSpec)
    (r : FileTaskResult) (c2 : Nat)
    (h : runFileTask grammars oracle rl inv ctr f = (Except.ok r, c2)) :
    ∀ k, ctr ≤ k → k < c2 → oracle k ≠ ProviderResult.authFailure := by
  rcases hx : extract grammars f.content f.language with e | spans
  · cases e
    case parseError =>
      rcases hu : runUnits oracle rl inv ctr [wholeFileUnit f.content] with ⟨res, cu⟩
      cases res with
      | error e2 =>
        simp only [runFileTask, hx, hu] at h
        exact absurd h (by simp)
      | ok ds =>
        simp only [runFileTask, hx, hu] at h
        injection h with h1 h2
        intro k hk1 hk2
        exact runUnits_no_auth_of_ok oracle rl inv [wholeFileUnit f.content] ctr ds cu
          hu k hk1 (by omega)
    all_goals
      simp only [runFileTask, hx] at h
      injection h with h1 h2
      intro k hk1 hk2
      omega
  · rcases hu : runUnits oracle rl inv ctr spans with ⟨res, cu⟩
    cases res with
    | error e2 =>
      simp only [runFileTask, hx, hu] at h
      exact absurd h (by simp)
    | ok ds =>
      simp only [runFileTask, hx, hu] at h
      injection h with h1 h2
      intro k hk1 hk2
      exact runUnits_no_auth_of_ok oracle rl inv spans ctr ds cu hu k hk1 (by omega)

/-- A batch fan-out that completes consumed no AuthFailure response at any
call index it issued. -/
theorem runFiles_no_auth_of_ok (grammars : Grammars)
    (oracle : Nat → ProviderResult) (rl inv : Nat) :
    ∀ (files : List FileSpec) (ctr : Nat) (rs : List FileTaskResult) (c : Nat),
      runFiles grammars oracle rl inv ctr files = (Except.ok rs, c) →
      ∀ k, ctr ≤ k → k < c → oracle k ≠ ProviderResult.authFailure := by
  intro files
  induction files with
  | nil =>
    intro ctr rs c h k hk1 hk2
    simp only [runFiles] at h
    injection h with h1 h2
    omega
  | cons f rest ih =>
    intro ctr rs c h k hk1 hk2
    rcases hf : runFileTask grammars oracle rl inv ctr f with ⟨res, c2⟩
    cases res with
    | error e =>
      simp only [runFiles, hf] at h
      exact absurd h (by simp)
    | ok r =>
      rcases hr : runFiles grammars oracle rl inv c2 rest with ⟨res2, c3⟩
      cases res2 with
      | error e =>
        simp only [runFiles, hf, hr] at h
        exact absurd h (by simp)
      | ok rs2 =>
        simp only [runFiles, hf, hr] at h
        injection h with h1 h2
        by_cases hkc : k < c2
        · exact runFileTask_no_auth_of_ok grammars oracle rl inv ctr f r c2 hf k hk1 hkc
        · exact ih c2 rs2 c3 hr k (by omega) (by omega)

/-! ## Claim theorems for the pipeline -/

/-- Claim C3: a Job reaches the failed disposition only under a fatal
job-wide condition — an AuthFailure from a provider call or zero files
accepted; a job in which SOME issued provider call (any call index below
the number of calls the job issued) returns AuthFailure fails with that
reason, while a job none of whose issued calls returns AuthFailure — its
failures all per-file or per-unit — completes with one FileTaskResult per
file, errors recorded as data. -/
theorem c3_failed_only_on_fatal (grammars : Grammars) (oracle : Nat → ProviderResult)
    (rl inv : Nat) (files : List FileSpec) :
    (∀ r, (runJob grammars oracle rl inv files).1 = JobFinal.failed r →
        r = ErrKind.authFailure ∨ r = ErrKind.emptyBatch) ∧
    ((∃ k, k < (runJob grammars oracle rl inv files).2 ∧
        oracle k = ProviderResult.authFailure) →
        (runJob grammars oracle rl inv files).1 = JobFinal.failed ErrKind.authFailure) ∧
    ((∀ n, oracle n ≠ ProviderResult.authFailure) → files ≠ [] →
        ∃ rs, (runJob grammars oracle rl inv files).1 = JobFinal.completed rs ∧
          rs.length = files.length) := by
  refine ⟨?_, ?_, ?_⟩
  · intro r hr
    unfold runJob at hr
    split at hr
    · simp only [Prod.fst] at hr
      injection hr with hr
      exact Or.inr hr.symm
    · split at hr
      · injection hr with hr
        exact Or.inl hr.symm
      · cases hr
  · rintro ⟨k, hk, hka⟩
    rcases hfiles : files with _ | ⟨f, fs⟩
    · subst hfiles
      have hz : (runJob grammars oracle rl inv []).2 = 0 := rfl
      rw [hz] at hk
      exact absurd hk (Nat.not_lt_zero k)
    subst hfiles
    rcases hx : runFiles grammars oracle rl inv 0 (f :: fs) with ⟨res, c⟩
    cases res with
    | error e => simp [runJob, hx]
    | ok rs =>
      simp only [runJob, List.isEmpty_cons, Bool.false_eq_true, if_false, hx] at hk
      exact absurd hka
        (runFiles_no_auth_of_ok grammars oracle rl inv (f :: fs) 0 rs c hx k
          (Nat.zero_le k) hk)
  · intro hna hne
    rcases hfiles : files with _ | ⟨f, fs⟩
    · exact absurd hfiles hne
    subst hfiles
    obtain ⟨rs, c, hx, hlen⟩ := runFiles_ok_of_no_auth grammars oracle rl inv hna (f :: fs) 0
    exact ⟨rs, by simp [runJob, hx], hlen⟩

/-- Witness for claim C3: a job whose single issued provider call returns
AuthFailure fails with that reason, and one Python file under an adapter
that always succeeds completes with one per-file record. -/
theorem c3_failed_only_on_fatal_witness :
    (runJob (fun _ => some (fun c => some [wholeFileUnit c]))
        (fun _ => ProviderResult.authFailure) 3 1
        [⟨"a.py", ['x'], "python"⟩]).1 = JobFinal.failed ErrKind.authFailure ∧
    ∃ rs, (runJob (fun _ => none) (fun _ => ProviderResult.ok "doc") 3 1
        [⟨"a.py", ['x'], "python"⟩]).1 = JobFinal.completed rs ∧
      rs.length = ([⟨"a.py", ['x'], "python"⟩] : List FileSpec).length := by
  constructor
  · have h1 : runUnits (fun _ => ProviderResult.authFailure) 3 1 0
        [wholeFileUnit ['x']] = (Except.error (), 1) :=
      runUnits_auth_cons (fun _ => ProviderResult.authFailure) 3 1 0
        (wholeFileUnit ['x']) [] (fun _ => rfl)
    have hx : extract (fun _ => some (fun c => some [wholeFileUnit c])) ['x'] "python" =
        Except.ok [wholeFileUnit ['x']] := rfl
    have h2 : runFileTask (fun _ => some (fun c => some [wholeFileUnit c]))
        (fun _ => ProviderResult.authFailure) 3 1 0 ⟨"a.py", ['x'], "python"⟩ =
        (Except.error (), 1) := by
      simp only [runFileTask, hx, h1]
    have h3 : runFiles (fun _ => some (fun c => some [wholeFileUnit c]))
        (fun _ => ProviderResult.authFailure) 3 1 0 [⟨"a.py", ['x'], "python"⟩] =
        (Except.error (), 1) := by
      simp only [runFiles, h2]
    have hrun : runJob (fun _ => some (fun c => some [wholeFileUnit c]))
        (fun _ => ProviderResult.authFailure) 3 1 [⟨"a.py", ['x'], "python"⟩] =
        (JobFinal.failed ErrKind.authFailure, 1) := by
      simp [runJob, h3]
    exact (c3_failed_only_on_fatal (fun _ => some (fun c => some [wholeFileUnit c]))
        (fun _ => ProviderResult.authFailure) 3 1 [⟨"a.py", ['x'], "python"⟩]).2.1
      ⟨0, by rw [hrun]; exact Nat.one_pos, rfl⟩
  · exact (c3_failed_only_on_fatal (fun _ => none) (fun _ => ProviderResult.ok "doc") 3 1
        [⟨"a.py", ['x'], "python"⟩]).2.2
      (fun _ h => ProviderResult.noConfusion h) (by simp)

/-- Claim C4: for any adapter behavior the retry loop never exceeds its
configured budgets — at most 1 + rl + inv provider calls per unit; an
adapter that rate-limits (or times out) every call exhausts the budget
and the unit appears in the results marked failed with its terminal kind
(RateLimited, or Timeout), one result per sibling unit, so nothing is
dropped and no sibling is aborted; and a generation that receives only
RateLimited or Timeout failures before a success within the retry budget
succeeds after exactly those retries. -/
theorem c4_retry_bounded_units_not_dropped (oracle : Nat → ProviderResult)
    (rl inv ctr m : Nat) (t : String) (us : List SourceSpan) :
    (generateWithRetry oracle ctr rl inv).2 ≤ ctr + 1 + rl + inv ∧
    ((∀ n, oracle n = ProviderResult.rateLimited) →
      (generateWithRetry oracle ctr rl inv).1 =
          GenOutcome.unitFailed ErrKind.rateLimited ∧
      ∃ ds c2, runUnits oracle rl inv ctr us = (Except.ok ds, c2) ∧
        ds.length = us.length ∧
        ∀ d ∈ ds, d.status = GenStatus.failed ErrKind.rateLimited) ∧
    ((∀ n, oracle n = ProviderResult.timeout) →
      (generateWithRetry oracle ctr rl inv).1 =
          GenOutcome.unitFailed ErrKind.timeout ∧
      ∃ ds c2, runUnits oracle rl inv ctr us = (Except.ok ds, c2) ∧
        ds.length = us.length ∧
        ∀ d ∈ ds, d.status = GenStatus.failed ErrKind.timeout) ∧
    ((∀ j, j < m → oracle (ctr + j) = ProviderResult.rateLimited ∨
        oracle (ctr + j) = ProviderResult.timeout) →
      oracle (ctr + m) = ProviderResult.ok t → m ≤ rl →
      generateWithRetry oracle ctr rl inv = (GenOutcome.success t, ctr + m + 1)) :=
  ⟨generateWithRetry_ctr_le oracle ctr rl inv,
   fun hrl => ⟨generateWithRetry_always_rl oracle ctr rl inv hrl,
     runUnits_all_failed_rl oracle rl inv hrl us ctr⟩,
   fun hto => ⟨generateWithRetry_always_to oracle ctr rl inv hto,
     runUnits_all_failed_to oracle rl inv hto us ctr⟩,
   fun hpre hok hm =>
     generateWithRetry_success_within oracle inv m ctr rl t hpre hok hm⟩

/-- Witness for claim C4: retry budget 2 with one InvalidResponse retry
and two sibling units under an always-rate-limited adapter; the same
budgets under an always-timing-out adapter; and a generation that is
rate-limited twice and then succeeds on its third call with retry budget
3. -/
theorem c4_retry_bounded_units_not_dropped_witness :
    ((generateWithRetry (fun _ => ProviderResult.rateLimited) 0 2 1).1 =
        GenOutcome.unitFailed ErrKind.rateLimited ∧
      ∃ ds c2, runUnits (fun _ => ProviderResult.rateLimited) 2 1 0
          [wholeFileUnit ['a'], wholeFileUnit ['b']] = (Except.ok ds, c2) ∧
        ds.length = ([wholeFileUnit ['a'], wholeFileUnit ['b']] : List SourceSpan).length ∧
        ∀ d ∈ ds, d.status = GenStatus.failed ErrKind.rateLimited) ∧
    ((generateWithRetry (fun _ => ProviderResult.timeout) 0 2 1).1 =
        GenOutcome.unitFailed ErrKind.timeout ∧
      ∃ ds c2, runUnits (fun _ => ProviderResult.timeout) 2 1 0
          [wholeFileUnit ['a'], wholeFileUnit ['b']] = (Except.ok ds, c2) ∧
        ds.length = ([wholeFileUnit ['a'], wholeFileUnit ['b']] : List SourceSpan).length ∧
        ∀ d ∈ ds, d.status = GenStatus.failed ErrKind.timeout) ∧
    generateWithRetry
        (fun n => if n < 2 then ProviderResult.rateLimited else ProviderResult.ok "doc")
        0 3 1 = (GenOutcome.success "doc", 0 + 2 + 1) :=
  ⟨(c4_retry_bounded_units_not_dropped (fun _ => ProviderResult.rateLimited) 2 1 0 0 ""
      [wholeFileUnit ['a'], wholeFileUnit ['b']]).2.1 (fun _ => rfl),
   (c4_retry_bounded_units_not_dropped (fun _ => ProviderResult.timeout) 2 1 0 0 ""
      [wholeFileUnit ['a'], wholeFileUnit ['b']]).2.2.1 (fun _ => rfl),
   (c4_retry_bounded_units_not_dropped
      (fun n => if n < 2 then ProviderResult.rateLimited else ProviderResult.ok "doc")
      3 1 0 2 "doc" []).2.2.2
     (fun j hj => Or.inl (by rw [if_pos (show 0 + j < 2 by omega)]))
     (by rw [if_neg (show ¬(0 + 2 < 2) by omega)])
     (by omega)⟩

/-- Claim C5: a submit call that fails validation returns the matching
error synchronously — EmptyBatch for an empty list, TooManyFiles then
PayloadTooLarge over the configured limits — and on any validation error
the Result Store is unchanged and zero Provider Adapter calls are issued:
submission is atomic on error. -/
theorem c5_submit_atomic_on_error (limits : SubmitLimits) (grammars : Grammars)
    (oracle : Nat → ProviderResult) (rl inv : Nat) (store : ResultStore)
    (newId : String) (files : List FileSpec) :
    (files = [] →
      submit limits grammars oracle rl inv store newId files =
        (Except.error ErrKind.emptyBatch, store, 0)) ∧
    (files ≠ [] → limits.maxFiles < files.length →
      submit limits grammars oracle rl inv store newId files =
        (Except.error ErrKind.tooManyFiles, store, 0)) ∧
    (files ≠ [] → files.length ≤ limits.maxFiles →
        limits.maxPayloadBytes < payloadSize files →
      submit limits grammars oracle rl inv store newId files =
        (Except.error ErrKind.payloadTooLarge, store, 0)) ∧
    (∀ e s2 n, submit limits grammars oracle rl inv store newId files =
        (Except.error e, s2, n) → s2 = store ∧ n = 0) := by
  refine ⟨?_, ?_, ?_, ?_⟩
  · intro h
    subst h
    rfl
  · intro hne hlt
    have hemp : ¬(files.isEmpty = true) := by simp [List.isEmpty_iff, hne]
    unfold submit validateSubmit
    rw [if_neg hemp, if_pos hlt]
  · intro hne hle hpl
    have hemp : ¬(files.isEmpty = true) := by simp [List.isEmpty_iff, hne]
    unfold submit validateSubmit
    rw [if_neg hemp, if_neg (by omega), if_pos hpl]
  · intro e s2 n h
    rcases hv : validateSubmit limits files with e2 | u
    · simp only [submit, hv] at h
      injection h with h1 h23
      injection h23 with h2 h3
      exact ⟨h2.symm, h3.symm⟩
    · simp only [submit, hv] at h
      exact absurd h (by simp)

/-- Witness for claim C5: the empty submission at a concrete store. -/
theorem c5_submit_atomic_on_error_witness :
    submit ⟨10, 1000⟩ (fun _ => none) (fun _ => ProviderResult.ok "d") 3 1 [] "job-1" [] =
      (Except.error ErrKind.emptyBatch, [], 0) :=
  (c5_submit_atomic_on_error ⟨10, 1000⟩ (fun _ => none)
    (fun _ => ProviderResult.ok "d") 3 1 [] "job-1" []).1 rfl

/-- Claim C6: when the registered grammar cannot parse a file, extraction
degrades to the whole file as a single unit rather than failing — the
fallback unit is always available — and the ParseError is non-fatal: the
FileTask still runs, produces documentation for the single fallback unit,
and records the ParseError as the file-level error. -/
theorem c6_parse_error_degrades (grammars : Grammars)
    (g : List Char → Option (List SourceSpan)) (content : List Char)
    (language name : String) (oracle : Nat → ProviderResult) (rl inv ctr : Nat)
    (hreg : grammars language = some g) (hpf : g content = none)
    (hna : ∀ n, oracle n ≠ ProviderResult.authFailure) :
    extractWithFallback grammars content language = Except.ok [wholeFileUnit content] ∧
    ∃ r c2, runFileTask grammars oracle rl inv ctr ⟨name, content, language⟩ =
        (Except.ok r, c2) ∧ r.units.length = 1 ∧
        r.fileError = some ErrKind.parseError := by
  have hx : extract grammars content language = Except.error ErrKind.parseError := by
    simp only [extract, hreg, hpf]
  refine ⟨by simp only [extractWithFallback, hx], ?_⟩
  obtain ⟨ds, c2, hds, hlen⟩ :=
    runUnits_ok_of_no_auth oracle rl inv hna [wholeFileUnit content] ctr
  refine ⟨⟨name, ds, some ErrKind.parseError⟩, c2, ?_, ?_, rfl⟩
  · simp only [runFileTask, hx, hds]
  · simpa using hlen

/-- Witness for claim C6: a one-byte file whose grammar always fails to
parse, under an adapter that always succeeds. -/
theorem c6_parse_error_degrades_witness :
    extractWithFallback (fun _ => some (fun _ => none)) ['a'] "python" =
      Except.ok [wholeFileUnit ['a']] ∧
    ∃ r c2, runFileTask (fun _ => some (fun _ => none))
        (fun _ => ProviderResult.ok "doc") 3 1 0 ⟨"a.py", ['a'], "python"⟩ =
        (Except.ok r, c2) ∧ r.units.length = 1 ∧
        r.fileError = some ErrKind.parseError :=
  c6_parse_error_degrades (fun _ => some (fun _ => none)) (fun _ => none) ['a']
    "python" "a.py" (fun _ => ProviderResult.ok "doc") 3 1 0 rfl rfl
    (fun _ h => ProviderResult.noConfusion h)

/-- Claim C7: the Source Unit Extractor is deterministic — two extraction
derivations for identical content and identical language return equal
sequences of unit descriptors, element for element and in the same
order. -/
theorem c7_extract_deterministic (grammars : Grammars) (content : List Char)
    (language : String) (us vs : List SourceSpan)
    (h1 : ExtractRel grammars content language us)
    (h2 : ExtractRel grammars content language vs) :
    us = vs ∧ ∀ i : Nat, us[i]? = vs[i]? := by
  have heq : us = vs := by
    cases h1 with
    | parsed hg1 hp1 =>
      rename_i g1
      cases h2 with
      | parsed hg2 hp2 =>
        rename_i g2
        have hg : g1 = g2 := Option.some.inj (hg1.symm.trans hg2)
        subst hg
        exact Option.some.inj (hp1.symm.trans hp2)
      | fallback hg2 hp2 =>
        rename_i g2
        have hg : g1 = g2 := Option.some.inj (hg1.symm.trans hg2)
        subst hg
        rw [hp2] at hp1
        cases hp1
    | fallback hg1 hp1 =>
      rename_i g1
      cases h2 with
      | parsed hg2 hp2 =>
        rename_i g2
        have hg : g1 = g2 := Option.some.inj (hg1.symm.trans hg2)
        subst hg
        rw [hp1] at hp2
        cases hp2
      | fallback hg2 hp2 => rfl
  exact ⟨heq, fun i => by rw [heq]⟩

/-- Witness for claim C7: two derivations over a grammar that returns the
whole-file unit. -/
theorem c7_extract_deterministic_witness :
    [wholeFileUnit ['a']] = [wholeFileUnit ['a']] ∧
    ∀ i : Nat, ([wholeFileUnit ['a']] : List SourceSpan)[i]? =
      ([wholeFileUnit ['a']] : List SourceSpan)[i]? :=
  c7_extract_deterministic (fun _ => some (fun c => some [wholeFileUnit c])) ['a']
    "python" [wholeFileUnit ['a']] [wholeFileUnit ['a']]
    (ExtractRel.parsed rfl rfl) (ExtractRel.parsed rfl rfl)

end CodeScribe
